import Mathlib

/-!
Verification of the ESP32-CAM license-plate-recognition pipeline
(`src/main.cpp` of the repository) against its design specification.

The C++ source is shallowly embedded: pure functions become Lean
functions, globals (the OCR alphabet table `CHARACTERS`, the class
count `NUM_CHARACTERS`) become explicit parameters with the repo's
values instantiated, `float` probabilities are modelled as `ℚ`
(only ordering of probabilities matters to the decoder), `String`
results are modelled as `List Char`, and the effectful `setup`/`loop`
Arduino entry points become functions from their environment
(camera result, detector output, clock readings) to a record of the
observable effects (frame-buffer releases, stage invocations,
reported result and timings).
-/

/-! ## The OCR alphabet (globals `CHARACTERS`, `NUM_CHARACTERS`) -/

/-- Source global `const char* CHARACTERS = "0123456789ABCDEFGHIJKLMNOPQRSTUVWXYZ";` -/
def CHARACTERS : List Char := "0123456789ABCDEFGHIJKLMNOPQRSTUVWXYZ".toList

/-- Source global `const int NUM_CHARACTERS = 36;` -/
def NUM_CHARACTERS : Nat := 36

/-! ## CTC greedy decoder (`ctcBeamSearchDecode`) -/

/-- The inner argmax scan of `ctcBeamSearchDecode`:
`for (int c = 1; c < num_classes; c++) if (pred[c] > max_prob) {...}`.
`c` is the class index of the head of the remaining row, and
`maxClass`/`maxProb` are the running best class and probability. -/
def argmaxFrom (c maxClass : Nat) (maxProb : ℚ) : List ℚ → Nat
  | [] => maxClass
  | p :: rest =>
    if maxProb < p then argmaxFrom (c + 1) c p rest
    else argmaxFrom (c + 1) maxClass maxProb rest

/-- Argmax of one timestep row, initialised exactly as in the source:
`max_class = 0; max_prob = predictions[i * num_classes]`, then the scan
from class 1 with strict greater-than. -/
def rowArgmax : List ℚ → Nat
  | [] => 0
  | p :: rest => argmaxFrom 1 0 p rest

/-- The decode loop of `ctcBeamSearchDecode`, with the mutable
`prev_class` (initially `-1`) made an explicit parameter.  The alphabet
table and class count are the globals `CHARACTERS`/`NUM_CHARACTERS`,
passed explicitly.  Per timestep: take the argmax class; emit
`CHARS[max_class - 1]` iff it is non-blank, differs from `prev_class`
and `max_class - 1 < NUM`; always update `prev_class := max_class`. -/
def ctcDecodeFrom (CHARS : List Char) (NUM : Nat) (prev : Int) :
    List (List ℚ) → List Char
  | [] => []
  | row :: rest =>
    let max_class := rowArgmax row
    if max_class ≠ 0 ∧ (max_class : Int) ≠ prev then
      if max_class - 1 < NUM then
        CHARS.getD (max_class - 1) ' ' :: ctcDecodeFrom CHARS NUM (max_class : Int) rest
      else
        ctcDecodeFrom CHARS NUM (max_class : Int) rest
    else
      ctcDecodeFrom CHARS NUM (max_class : Int) rest

/-- The decoder `ctcBeamSearchDecode` with the alphabet table/class count as
explicit parameters (they are globals in the source, and the spec lists
the alphabet table under the configuration surface). -/
def ctcBeamSearchDecodeWith (CHARS : List Char) (NUM : Nat)
    (predictions : List (List ℚ)) : List Char :=
  ctcDecodeFrom CHARS NUM (-1) predictions

/-- Source function `String ctcBeamSearchDecode(float* predictions, int seq_len, int num_classes)`
instantiated with the repository's globals. -/
def ctcBeamSearchDecode (predictions : List (List ℚ)) : List Char :=
  ctcBeamSearchDecodeWith CHARACTERS NUM_CHARACTERS predictions

/-- Proof helper: the decode loop on the per-timestep argmax labels
instead of the probability rows. -/
def ctcLabelDecodeFrom (CHARS : List Char) (NUM : Nat) (prev : Int) :
    List Nat → List Char
  | [] => []
  | c :: rest =>
    if c ≠ 0 ∧ (c : Int) ≠ prev then
      if c - 1 < NUM then
        CHARS.getD (c - 1) ' ' :: ctcLabelDecodeFrom CHARS NUM (c : Int) rest
      else
        ctcLabelDecodeFrom CHARS NUM (c : Int) rest
    else
      ctcLabelDecodeFrom CHARS NUM (c : Int) rest

theorem ctcDecodeFrom_eq_label (CHARS : List Char) (NUM : Nat) :
    ∀ (grid : List (List ℚ)) (prev : Int),
      ctcDecodeFrom CHARS NUM prev grid =
        ctcLabelDecodeFrom CHARS NUM prev (grid.map rowArgmax) := by
  intro grid
  induction grid with
  | nil => intro prev; rfl
  | cons row rest ih =>
    intro prev
    simp only [ctcDecodeFrom, ctcLabelDecodeFrom, List.map_cons]
    split
    · split
      · exact congrArg _ (ih _)
      · exact ih _
    · exact ih _

/-! ### Step lemmas for the label-level decode loop -/

theorem label_step_blank (CHARS : List Char) (NUM : Nat) (prev : Int)
    (rest : List Nat) :
    ctcLabelDecodeFrom CHARS NUM prev (0 :: rest) =
      ctcLabelDecodeFrom CHARS NUM 0 rest := by
  simp [ctcLabelDecodeFrom]

theorem label_step_repeat (CHARS : List Char) (NUM : Nat) (prev : Int)
    (c : Nat) (rest : List Nat) (h : (c : Int) = prev) :
    ctcLabelDecodeFrom CHARS NUM prev (c :: rest) =
      ctcLabelDecodeFrom CHARS NUM (c : Int) rest := by
  simp [ctcLabelDecodeFrom, h]

theorem label_step_emit (CHARS : List Char) (NUM : Nat) (prev : Int)
    (c : Nat) (rest : List Nat) (h0 : c ≠ 0) (hp : (c : Int) ≠ prev)
    (hr : c - 1 < NUM) :
    ctcLabelDecodeFrom CHARS NUM prev (c :: rest) =
      CHARS.getD (c - 1) ' ' :: ctcLabelDecodeFrom CHARS NUM (c : Int) rest := by
  simp [ctcLabelDecodeFrom, h0, hp, hr]

theorem label_step_outrange (CHARS : List Char) (NUM : Nat) (prev : Int)
    (c : Nat) (rest : List Nat) (hr : NUM ≤ c - 1) :
    ctcLabelDecodeFrom CHARS NUM prev (c :: rest) =
      ctcLabelDecodeFrom CHARS NUM (c : Int) rest := by
  simp only [ctcLabelDecodeFrom]
  split
  · rw [if_neg (by omega)]
  · rfl

theorem label_all_blank (CHARS : List Char) (NUM : Nat) :
    ∀ (labels : List Nat) (prev : Int), (∀ c ∈ labels, c = 0) →
      ctcLabelDecodeFrom CHARS NUM prev labels = [] := by
  intro labels
  induction labels with
  | nil => intro prev _; rfl
  | cons c rest ih =>
    intro prev h
    have hc : c = 0 := h c (List.mem_cons_self _ _)
    subst hc
    rw [label_step_blank]
    exact ih 0 fun d hd => h d (List.mem_cons_of_mem _ hd)

/-! ### Specification of the argmax scan -/

/-- The scan either keeps the incoming best class (when nothing in the
remaining suffix strictly exceeds the incoming best probability), or
returns `c + j` for the first position `j` of the suffix attaining the
suffix's overall winning probability. -/
theorem argmaxFrom_spec :
    ∀ (rest : List ℚ) (c mc : Nat) (mp : ℚ),
      (argmaxFrom c mc mp rest = mc ∧ ∀ j < rest.length, rest.getD j 0 ≤ mp)
      ∨ (∃ j, j < rest.length ∧ argmaxFrom c mc mp rest = c + j
          ∧ mp < rest.getD j 0
          ∧ (∀ k < rest.length, rest.getD k 0 ≤ rest.getD j 0)
          ∧ (∀ k < j, rest.getD k 0 < rest.getD j 0)) := by
  intro rest
  induction rest with
  | nil =>
    intro c mc mp
    exact Or.inl ⟨rfl, by intro j hj; simp at hj⟩
  | cons p rest ih =>
    intro c mc mp
    by_cases hp : mp < p
    · rw [show argmaxFrom c mc mp (p :: rest) = argmaxFrom (c + 1) c p rest by
        simp [argmaxFrom, hp]]
      rcases ih (c + 1) c p with ⟨heq, hle⟩ | ⟨j, hj, heq, hlt, hle, hstrict⟩
      · refine Or.inr ⟨0, by simp, by omega, by simpa using hp, ?_, ?_⟩
        · intro k hk
          match k with
          | 0 => simp
          | k + 1 =>
            simp only [List.getD_cons_succ, List.getD_cons_zero]
            exact hle k (by simpa using hk)
        · intro k hk; omega
      · refine Or.inr ⟨j + 1, by simpa using hj, by omega, ?_, ?_, ?_⟩
        · simpa using lt_trans hp hlt
        · intro k hk
          match k with
          | 0 =>
            simp only [List.getD_cons_succ, List.getD_cons_zero]
            exact le_of_lt hlt
          | k + 1 =>
            simp only [List.getD_cons_succ]
            exact hle k (by simpa using hk)
        · intro k hk
          match k with
          | 0 =>
            simp only [List.getD_cons_succ, List.getD_cons_zero]
            exact hlt
          | k + 1 =>
            simp only [List.getD_cons_succ]
            exact hstrict k (by omega)
    · rw [show argmaxFrom c mc mp (p :: rest) = argmaxFrom (c + 1) mc mp rest by
        simp [argmaxFrom, hp]]
      rcases ih (c + 1) mc mp with ⟨heq, hle⟩ | ⟨j, hj, heq, hlt, hle, hstrict⟩
      · refine Or.inl ⟨heq, ?_⟩
        intro k hk
        match k with
        | 0 => simpa using le_of_not_lt hp
        | k + 1 =>
          simp only [List.getD_cons_succ]
          exact hle k (by simpa using hk)
      · refine Or.inr ⟨j + 1, by simpa using hj, by omega, ?_, ?_, ?_⟩
        · simpa using hlt
        · intro k hk
          match k with
          | 0 =>
            simp only [List.getD_cons_succ, List.getD_cons_zero]
            exact le_trans (le_of_not_lt hp) (le_of_lt hlt)
          | k + 1 =>
            simp only [List.getD_cons_succ]
            exact hle k (by simpa using hk)
        · intro k hk
          match k with
          | 0 =>
            simp only [List.getD_cons_succ, List.getD_cons_zero]
            exact lt_of_le_of_lt (le_of_not_lt hp) hlt
          | k + 1 =>
            simp only [List.getD_cons_succ]
            exact hstrict k (by omega)

/-- For a nonempty row, `rowArgmax` is a valid index, attains the maximum,
and everything strictly before it is strictly below the maximum (hence
ties are resolved to the smallest class index). -/
theorem rowArgmax_spec (p0 : ℚ) (rest : List ℚ) :
    rowArgmax (p0 :: rest) < (p0 :: rest).length ∧
    (∀ j < (p0 :: rest).length,
      (p0 :: rest).getD j 0 ≤ (p0 :: rest).getD (rowArgmax (p0 :: rest)) 0) ∧
    (∀ j < rowArgmax (p0 :: rest),
      (p0 :: rest).getD j 0 < (p0 :: rest).getD (rowArgmax (p0 :: rest)) 0) := by
  have hbase : rowArgmax (p0 :: rest) = argmaxFrom 1 0 p0 rest := rfl
  rcases argmaxFrom_spec rest 1 0 p0 with ⟨heq, hle⟩ | ⟨j, hj, heq, hlt, hle, hstrict⟩
  · rw [hbase, heq]
    refine ⟨by simp, ?_, by intro j hj; omega⟩
    intro k hk
    match k with
    | 0 => simp
    | k + 1 =>
      simp only [List.getD_cons_succ, List.getD_cons_zero]
      exact hle k (by simpa using hk)
  · rw [hbase, heq]
    have hidx : (p0 :: rest).getD (1 + j) 0 = rest.getD j 0 := by
      rw [show 1 + j = j + 1 by omega]; simp
    refine ⟨by simp only [List.length_cons]; omega, ?_, ?_⟩
    · intro k hk
      rw [hidx]
      match k with
      | 0 => exact le_of_lt hlt
      | k + 1 =>
        simp only [List.getD_cons_succ]
        exact hle k (by simpa using hk)
    · intro k hk
      rw [hidx]
      match k with
      | 0 => exact hlt
      | k + 1 =>
        simp only [List.getD_cons_succ]
        exact hstrict k (by omega)

/-! ## Frame buffers and image preprocessing -/

/-- Frame type `camera_fb_t`: grayscale frame buffer as delivered by the camera
driver.  `buf i` is the byte at offset `i`; `len` is the buffer length
in bytes (`fb->len`). -/
structure camera_fb_t where
  width : Nat
  height : Nat
  len : Nat
  buf : Nat → Nat

/-- Source constant `#define OCR_INPUT_WIDTH 128`. -/
def OCR_INPUT_WIDTH : Nat := 128

/-- Source constant `#define OCR_INPUT_HEIGHT 64`. -/
def OCR_INPUT_HEIGHT : Nat := 64

/-- The source index `src_y * src_width + src_x` computed by
`preprocessImage` for output pixel `(x, y)`. -/
def srcIndex (fb : camera_fb_t) (y x : Nat) : Nat :=
  (y * fb.height / OCR_INPUT_HEIGHT) * fb.width + (x * fb.width / OCR_INPUT_WIDTH)

/-- Embedding of `void preprocessImage(camera_fb_t *fb, float *input_buffer)`:
value written to `input_buffer[y * OCR_INPUT_WIDTH + x]`.  The source
guards the read with `if (src_idx < fb->len)` and otherwise stores
`0.0f`. -/
def preprocessImage (fb : camera_fb_t) (y x : Nat) : ℚ :=
  let src_x := x * fb.width / OCR_INPUT_WIDTH
  let src_y := y * fb.height / OCR_INPUT_HEIGHT
  let src_idx := src_y * fb.width + src_x
  if src_idx < fb.len then (fb.buf src_idx : ℚ) / 255 else 0

/-! ## Pipeline stages (`detectPlate`, `detectPolygon`, `recognizeCharacters`) -/

/-- Source `struct BoundingBox { float x1, y1, x2, y2; float confidence; }` -/
structure BoundingBox where
  x1 : ℚ
  y1 : ℚ
  x2 : ℚ
  y2 : ℚ
  confidence : ℚ

/-- Source `struct Polygon { float x[4], y[4]; }` -/
structure Polygon where
  x : Fin 4 → ℚ
  y : Fin 4 → ℚ

/-- Embedding of `BoundingBox detectPlate(camera_fb_t *fb)` — the source's placeholder
detector: a dummy box covering the image center with confidence 0.95. -/
def detectPlate (fb : camera_fb_t) : BoundingBox :=
  { x1 := (fb.width : ℚ) * (3 / 10)
    y1 := (fb.height : ℚ) * (4 / 10)
    x2 := (fb.width : ℚ) * (7 / 10)
    y2 := (fb.height : ℚ) * (6 / 10)
    confidence := 95 / 100 }

/-- Embedding of `Polygon detectPolygon(camera_fb_t *fb, BoundingBox box)` — the
source's placeholder: the four rectangular corners of the box. -/
def detectPolygon (_fb : camera_fb_t) (box : BoundingBox) : Polygon :=
  { x := ![box.x1, box.x2, box.x2, box.x1]
    y := ![box.y1, box.y1, box.y2, box.y2] }

/-- Embedding of `String recognizeCharacters(camera_fb_t *fb, Polygon poly)` — the
source's placeholder: always the literal `"ABC1234"`. -/
def recognizeCharacters (_fb : camera_fb_t) (_poly : Polygon) : List Char :=
  "ABC1234".toList

/-! ## `setup()` -/

/-- Library constant `TFLITE_SCHEMA_VERSION`, the schema version the linked TensorFlow
Lite library supports (value 3 in TFLite flatbuffer schema). -/
def TFLITE_SCHEMA_VERSION : Nat := 3

/-- Environment of one `setup()` run: result of `esp_camera_init`, the
schema version each `tflite::GetModel` reports for the three bundled
model assets, and the success of each interpreter's `AllocateTensors`. -/
structure SetupEnv where
  cameraInitOk : Bool
  detectionVersion : Nat
  polygonVersion : Nat
  ocrVersion : Nat
  detectionAllocOk : Bool
  polygonAllocOk : Bool
  ocrAllocOk : Bool

/-- How one `setup()` run ends: at which early `return` it stops, or
`ready` when it reaches "All Models Ready!". -/
inductive SetupResult where
  | cameraFailed
  | detectionSchemaMismatch
  | detectionAllocFailed
  | polygonAllocFailed
  | ocrAllocFailed
  | ready
deriving DecidableEq

/-- Embedding of `void setup()`, step by step.  The schema-version comparison
`model->version() != TFLITE_SCHEMA_VERSION` appears in the source only
for the detection model; the polygon and OCR models go straight from
`tflite::GetModel` to `AllocateTensors`. -/
def setup (env : SetupEnv) : SetupResult :=
  if ¬env.cameraInitOk then .cameraFailed
  else if env.detectionVersion ≠ TFLITE_SCHEMA_VERSION then .detectionSchemaMismatch
  else if ¬env.detectionAllocOk then .detectionAllocFailed
  else if ¬env.polygonAllocOk then .polygonAllocFailed
  else if ¬env.ocrAllocOk then .ocrAllocFailed
  else .ready

/-! ## `loop()` -/

/-- The four durations printed in the success-path timing breakdown. -/
structure StageTimes where
  stage1 : Nat
  stage2 : Nat
  stage3 : Nat
  total : Nat
deriving DecidableEq

/-- Outcome of one `loop()` iteration. -/
inductive LoopOutcome where
  | captureFailed
  | notFound
  | recognized (text : List Char)
deriving DecidableEq

/-- Observable effects of one `loop()` iteration: how many times
`esp_camera_fb_return` ran on the acquired buffer, how many times each
later stage was invoked, the outcome, and the timing breakdown printed
with the result (`none` when no breakdown is printed). -/
structure LoopResult where
  fbReturnCount : Nat
  detectPolygonCalls : Nat
  recognizeCalls : Nat
  outcome : LoopOutcome
  report : Option StageTimes
deriving DecidableEq

/-- Unsigned `uint32_t` subtraction `a - b` (timing values come from `millis()`,
a `uint32_t` clock). -/
def u32sub (a b : Nat) : Nat := (a % 4294967296 + 4294967296 - b % 4294967296) % 4294967296

/-- Embedding of `void loop()`, one iteration.  `detect` is the detection stage
(the source calls the placeholder `detectPlate`; `loop` below
instantiates it), `fb?` is what `esp_camera_fb_get()` returned, and
`clock k` is the value of the `k`-th `millis()` call of the iteration.
The branch structure, stage ordering, `esp_camera_fb_return` calls and
the printed timing breakdown mirror the source line by line. -/
def loopRun (detect : camera_fb_t → BoundingBox) (fb? : Option camera_fb_t)
    (clock : Nat → Nat) : LoopResult :=
  match fb? with
  | none =>
    { fbReturnCount := 0, detectPolygonCalls := 0, recognizeCalls := 0
      outcome := .captureFailed, report := none }
  | some fb =>
    let total_start := clock 0
    let stage1_start := clock 1
    let plate_box := detect fb
    let _stage1_time := u32sub (clock 2) stage1_start
    if plate_box.confidence < 5 / 10 then
      { fbReturnCount := 1, detectPolygonCalls := 0, recognizeCalls := 0
        outcome := .notFound, report := none }
    else
      let stage2_start := clock 3
      let plate_polygon := detectPolygon fb plate_box
      let stage2_time := u32sub (clock 4) stage2_start
      let stage3_start := clock 5
      let plate_number := recognizeCharacters fb plate_polygon
      let stage3_time := u32sub (clock 6) stage3_start
      let total_time := u32sub (clock 7) total_start
      { fbReturnCount := 1, detectPolygonCalls := 1, recognizeCalls := 1
        outcome := .recognized plate_number
        report := some { stage1 := _stage1_time, stage2 := stage2_time
                         stage3 := stage3_time, total := total_time } }

/-- The function `loop()` as compiled: the detection stage is the source's
`detectPlate`. -/
def loop (fb? : Option camera_fb_t) (clock : Nat → Nat) : LoopResult :=
  loopRun detectPlate fb? clock

/-! ## Helper lemmas -/

theorem getD_of_getElem? {α : Type} (l : List α) (n : Nat) (d x : α)
    (h : l[n]? = some x) : l.getD n d = x := by
  induction l generalizing n with
  | nil => simp at h
  | cons a t ih =>
    match n with
    | 0 => simp_all
    | n + 1 =>
      simp only [List.getElem?_cons_succ] at h
      simp only [List.getD_cons_succ]
      exact ih n h

/-- A concrete frame buffer used by the witnesses: a full QVGA
grayscale frame of constant intensity 128. -/
def fbEx : camera_fb_t :=
  { width := 320, height := 240, len := 76800, buf := fun _ => 128 }

/-! ## Claim theorems -/

/-- C2: `ctcBeamSearchDecode` implements the spec's greedy collapse.
Over any alphabet table whose entries 0 and 1 are 'A' and 'B' (so class
1 maps to 'A', class 2 to 'B') and any in-range class count: every
prediction grid with per-timestep argmax labels `[0,1,1,0,2,2,0]`
decodes to "AB", every grid with labels `[1,1,1]` decodes to "A", and
every grid whose argmax is the blank class 0 at every timestep decodes
to the empty string. -/
theorem ctc_greedy_collapse_examples
    (CHARS : List Char) (NUM : Nat)
    (hA : CHARS[0]? = some 'A') (hB : CHARS[1]? = some 'B') (hNUM : 1 < NUM) :
    (∀ grid : List (List ℚ), grid.map rowArgmax = [0, 1, 1, 0, 2, 2, 0] →
      ctcBeamSearchDecodeWith CHARS NUM grid = ['A', 'B']) ∧
    (∀ grid : List (List ℚ), grid.map rowArgmax = [1, 1, 1] →
      ctcBeamSearchDecodeWith CHARS NUM grid = ['A']) ∧
    (∀ grid : List (List ℚ), (∀ row ∈ grid, rowArgmax row = 0) →
      ctcBeamSearchDecodeWith CHARS NUM grid = []) := by
  refine ⟨?_, ?_, ?_⟩
  · intro grid hg
    rw [ctcBeamSearchDecodeWith, ctcDecodeFrom_eq_label, hg]
    rw [label_step_blank]
    rw [label_step_emit _ _ _ _ _ (by decide) (by decide) (by omega)]
    rw [label_step_repeat _ _ _ _ _ rfl]
    rw [label_step_blank]
    rw [label_step_emit _ _ _ _ _ (by decide) (by decide) (by omega)]
    rw [label_step_repeat _ _ _ _ _ rfl]
    rw [label_step_blank]
    rw [getD_of_getElem? _ _ _ _ hA, getD_of_getElem? _ _ _ _ hB]
    rfl
  · intro grid hg
    rw [ctcBeamSearchDecodeWith, ctcDecodeFrom_eq_label, hg]
    rw [label_step_emit _ _ _ _ _ (by decide) (by decide) (by omega)]
    rw [label_step_repeat _ _ _ _ _ rfl]
    rw [label_step_repeat _ _ _ _ _ rfl]
    rw [getD_of_getElem? _ _ _ _ hA]
    rfl
  · intro grid hg
    rw [ctcBeamSearchDecodeWith, ctcDecodeFrom_eq_label]
    apply label_all_blank
    intro c hc
    rcases List.mem_map.1 hc with ⟨row, hrow, rfl⟩
    exact hg row hrow

/-- Witness for C2: the three collapses evaluated on concrete one-hot
grids over the two-letter table. -/
theorem ctc_greedy_collapse_examples_witness :
    ctcBeamSearchDecodeWith ['A', 'B'] 2
      [[(1:ℚ),0,0], [0,1,0], [0,1,0], [1,0,0], [0,0,1], [0,0,1], [1,0,0]] = ['A', 'B'] ∧
    ctcBeamSearchDecodeWith ['A', 'B'] 2 [[(0:ℚ),1], [0,1], [0,1]] = ['A'] ∧
    ctcBeamSearchDecodeWith ['A', 'B'] 2 [[(1:ℚ)], [1]] = [] := by
  have h := ctc_greedy_collapse_examples ['A', 'B'] 2 (by decide) (by decide) (by decide)
  exact ⟨h.1 _ (by decide), h.2.1 _ (by decide), h.2.2 _ (by decide)⟩

/-- C7: a blank between two emissions of the same non-blank class
prevents repeat-collapsing: every grid with argmax labels `[1,0,1]`
over a table whose entry 0 is 'A' decodes to "AA". -/
theorem ctc_blank_prevents_collapse
    (CHARS : List Char) (NUM : Nat)
    (hA : CHARS[0]? = some 'A') (hNUM : 0 < NUM) :
    ∀ grid : List (List ℚ), grid.map rowArgmax = [1, 0, 1] →
      ctcBeamSearchDecodeWith CHARS NUM grid = ['A', 'A'] := by
  intro grid hg
  rw [ctcBeamSearchDecodeWith, ctcDecodeFrom_eq_label, hg]
  rw [label_step_emit _ _ _ _ _ (by decide) (by decide) (by omega)]
  rw [label_step_blank]
  rw [label_step_emit _ _ _ _ _ (by decide) (by decide) (by omega)]
  rw [getD_of_getElem? _ _ _ _ hA]
  rfl

/-- Witness for C7 on a concrete one-hot grid. -/
theorem ctc_blank_prevents_collapse_witness :
    ctcBeamSearchDecodeWith ['A', 'B'] 2 [[(0:ℚ),1], [1,0], [0,1]] = ['A', 'A'] :=
  ctc_blank_prevents_collapse ['A', 'B'] 2 (by decide) (by decide) _ (by decide)

/-- Class label of a character in the claim's re-encoding of an
already-decoded string as a trivial grid: its position in the alphabet
table, shifted by one past the blank class. -/
def encodeChar (ch : Char) : Nat := CHARACTERS.indexOf ch + 1

theorem CHARACTERS_length : CHARACTERS.length = 36 := rfl

/-- Decoding the label sequence of a collapsed string (all classes
non-blank and in range, no adjacent repeats) reproduces the string,
for any incoming `prev_class` different from the first label. -/
theorem label_decode_encode :
    ∀ (s : List Char) (prev : Int),
      (∀ ch ∈ s, ch ∈ CHARACTERS) → List.Chain' (fun a b => a ≠ b) s →
      (∀ ch ∈ s.head?, (encodeChar ch : Int) ≠ prev) →
      ctcLabelDecodeFrom CHARACTERS NUM_CHARACTERS prev (s.map encodeChar) = s := by
  intro s
  induction s with
  | nil => intro prev _ _ _; rfl
  | cons ch s ih =>
    intro prev hmem hchain hhead
    have hch : ch ∈ CHARACTERS := hmem ch (List.mem_cons_self _ _)
    have hidx : CHARACTERS.indexOf ch < CHARACTERS.length := List.indexOf_lt_length.2 hch
    have hlen : CHARACTERS.length = 36 := CHARACTERS_length
    have hr : encodeChar ch - 1 < NUM_CHARACTERS := by
      unfold encodeChar NUM_CHARACTERS; omega
    have h0 : encodeChar ch ≠ 0 := by unfold encodeChar; omega
    have hp : (encodeChar ch : Int) ≠ prev := hhead ch (by simp)
    obtain ⟨hhd, htail⟩ := List.chain'_cons'.1 hchain
    rw [List.map_cons, label_step_emit _ _ _ _ _ h0 hp hr]
    have hget : CHARACTERS.getD (encodeChar ch - 1) ' ' = ch := by
      have h1 : encodeChar ch - 1 = CHARACTERS.indexOf ch := by unfold encodeChar; omega
      rw [h1]
      exact getD_of_getElem? _ _ _ _
        (by rw [← List.get?_eq_getElem?]; exact List.indexOf_get? hch)
    rw [hget]
    refine congrArg (List.cons ch) (ih _ ?_ htail ?_)
    · exact fun d hd => hmem d (List.mem_cons_of_mem _ hd)
    · intro ch2 hch2
      have hne : ch ≠ ch2 := hhd ch2 hch2
      have hch2mem : ch2 ∈ CHARACTERS :=
        hmem ch2 (List.mem_cons_of_mem _ (List.mem_of_mem_head? hch2))
      have hs : encodeChar ch2 ≠ encodeChar ch := by
        unfold encodeChar
        intro heq
        have hidxeq : CHARACTERS.indexOf ch2 = CHARACTERS.indexOf ch := by omega
        exact hne ((List.indexOf_inj hch2mem hch).1 hidxeq).symm
      exact_mod_cast hs

/-- C8: the decoder is idempotent on already-collapsed output: for
every string over the repository's 36-character alphabet with no two
equal adjacent characters, and every grid whose per-timestep argmax
labels re-encode that string (one non-blank class per timestep, no
blanks, no adjacent repeats), `ctcBeamSearchDecode` returns the string
unchanged. -/
theorem ctc_idempotent_on_collapsed
    (s : List Char) (grid : List (List ℚ))
    (hmem : ∀ ch ∈ s, ch ∈ CHARACTERS)
    (hchain : List.Chain' (fun a b => a ≠ b) s)
    (hg : grid.map rowArgmax = s.map encodeChar) :
    ctcBeamSearchDecode grid = s := by
  rw [ctcBeamSearchDecode, ctcBeamSearchDecodeWith, ctcDecodeFrom_eq_label, hg]
  apply label_decode_encode s (-1) hmem hchain
  intro ch _
  omega

/-- Witness for C8: the collapsed string "01" (classes 1 and 2) survives
a decode round-trip through a one-hot grid. -/
theorem ctc_idempotent_on_collapsed_witness :
    ctcBeamSearchDecode [[(0:ℚ),1,0], [0,0,1]] = ['0', '1'] :=
  ctc_idempotent_on_collapsed ['0', '1'] [[(0:ℚ),1,0], [0,0,1]]
    (by decide)
    (List.chain'_cons.2 ⟨by decide, List.chain'_singleton _⟩)
    (by decide)

/-- C9: a non-blank argmax class `c` with `c - 1` beyond the 36-entry
alphabet table emits no character (the table is never indexed out of
bounds, thanks to the `max_class - 1 < NUM_CHARACTERS` guard) but still
becomes the new `prev_class`, so it suppresses a following identical
class exactly as an emission would.  The last conjunct restates this
for a grid entering `ctcBeamSearchDecode` directly. -/
theorem ctc_out_of_range_class_silent
    (prev : Int) (c : Nat) (row : List ℚ) (rest : List (List ℚ))
    (hc : rowArgmax row = c) (hout : NUM_CHARACTERS ≤ c - 1)
    (hprev : (c : Int) ≠ prev) :
    ctcDecodeFrom CHARACTERS NUM_CHARACTERS prev (row :: rest) =
      ctcDecodeFrom CHARACTERS NUM_CHARACTERS (c : Int) rest ∧
    (∀ (row2 : List ℚ) (rest2 : List (List ℚ)), rowArgmax row2 = c →
      ctcDecodeFrom CHARACTERS NUM_CHARACTERS (c : Int) (row2 :: rest2) =
        ctcDecodeFrom CHARACTERS NUM_CHARACTERS (c : Int) rest2) ∧
    ctcBeamSearchDecode (row :: rest) =
      ctcDecodeFrom CHARACTERS NUM_CHARACTERS (c : Int) rest := by
  have hNUM : NUM_CHARACTERS = 36 := rfl
  have h0 : c ≠ 0 := by omega
  refine ⟨?_, ?_, ?_⟩
  · simp only [ctcDecodeFrom, hc]
    rw [if_pos ⟨h0, hprev⟩, if_neg (by omega)]
  · intro row2 rest2 hc2
    simp only [ctcDecodeFrom, hc2]
    rw [if_neg (by simp)]
  · rw [ctcBeamSearchDecode, ctcBeamSearchDecodeWith]
    simp only [ctcDecodeFrom, hc]
    rw [if_pos ⟨h0, by omega⟩, if_neg (by omega)]

/-- Witness for C9: class 37 (one past the table) at two consecutive
timesteps of a concrete grid emits nothing and suppresses its repeat. -/
theorem ctc_out_of_range_class_silent_witness :
    (ctcDecodeFrom CHARACTERS NUM_CHARACTERS (-1)
        ((List.replicate 37 (0:ℚ) ++ [1]) :: []) =
      ctcDecodeFrom CHARACTERS NUM_CHARACTERS ((37 : Nat) : Int) []) ∧
    (∀ (row2 : List ℚ) (rest2 : List (List ℚ)), rowArgmax row2 = 37 →
      ctcDecodeFrom CHARACTERS NUM_CHARACTERS ((37 : Nat) : Int) (row2 :: rest2) =
        ctcDecodeFrom CHARACTERS NUM_CHARACTERS ((37 : Nat) : Int) rest2) ∧
    ctcBeamSearchDecode ((List.replicate 37 (0:ℚ) ++ [1]) :: []) =
      ctcDecodeFrom CHARACTERS NUM_CHARACTERS ((37 : Nat) : Int) [] :=
  ctc_out_of_range_class_silent (-1) 37 (List.replicate 37 (0:ℚ) ++ [1]) []
    (by decide) (by decide) (by decide)

/-- C10: `ctcBeamSearchDecode` is a deterministic function of the grid,
and the per-timestep argmax scan (strict greater-than while increasing
the class index) selects a valid maximizing index that is strictly
above every earlier entry — hence the smallest class index on ties. -/
theorem ctc_decode_deterministic_min_tie :
    (∀ p q : List (List ℚ), p = q → ctcBeamSearchDecode p = ctcBeamSearchDecode q) ∧
    (∀ (p0 : ℚ) (rest : List ℚ),
      rowArgmax (p0 :: rest) < (p0 :: rest).length ∧
      (∀ j < (p0 :: rest).length,
        (p0 :: rest).getD j 0 ≤ (p0 :: rest).getD (rowArgmax (p0 :: rest)) 0) ∧
      (∀ j < rowArgmax (p0 :: rest),
        (p0 :: rest).getD j 0 < (p0 :: rest).getD (rowArgmax (p0 :: rest)) 0) ∧
      (∀ j < (p0 :: rest).length,
        (p0 :: rest).getD (rowArgmax (p0 :: rest)) 0 ≤ (p0 :: rest).getD j 0 →
          rowArgmax (p0 :: rest) ≤ j)) := by
  refine ⟨fun p q h => h ▸ rfl, fun p0 rest => ?_⟩
  obtain ⟨hlt, hmax, hstrict⟩ := rowArgmax_spec p0 rest
  refine ⟨hlt, hmax, hstrict, ?_⟩
  intro j hj hle
  by_contra hcon
  push_neg at hcon
  exact absurd hle (not_le.2 (hstrict j hcon))

/-- Witness for C10: determinism and the argmax bounds on a concrete
tied row (both entries equal, index 0 selected). -/
theorem ctc_decode_deterministic_min_tie_witness :
    ctcBeamSearchDecode [[(1:ℚ), 1]] = ctcBeamSearchDecode [[(1:ℚ), 1]] ∧
    rowArgmax [(1:ℚ), 1] < 2 :=
  ⟨ctc_decode_deterministic_min_tie.1 [[(1:ℚ), 1]] [[(1:ℚ), 1]] rfl,
   (ctc_decode_deterministic_min_tie.2 1 [1]).1⟩

/-- C1: every `loop()` iteration that acquires a frame buffer
(`esp_camera_fb_get` non-null) calls `esp_camera_fb_return` on it
exactly once — once on the early-abort (not-found) path and once on the
success path — for any detection stage and clock. -/
theorem loop_releases_frame_exactly_once
    (detect : camera_fb_t → BoundingBox) (fb : camera_fb_t) (clock : Nat → Nat) :
    (loopRun detect (some fb) clock).fbReturnCount = 1 := by
  simp only [loopRun]
  split <;> rfl

/-- C3 counterexample: for a 320x240 frame whose buffer is truncated to
100 bytes of constant intensity 200, output pixel (y,x) = (63,127) has
an out-of-bounds source index, yet `preprocessImage` writes 0 (black)
there — not the clamped value of any valid pixel (all of which
normalize to 200/255 ≠ 0). -/
theorem preprocess_out_of_bounds_zero_cex :
    (let fb : camera_fb_t := { width := 320, height := 240, len := 100, buf := fun _ => 200 }
     fb.len ≤ srcIndex fb 63 127 ∧
     preprocessImage fb 63 127 = 0 ∧
     (200 : ℚ) / 255 ≠ 0) := by
  refine ⟨by decide, ?_, by norm_num⟩
  simp only [preprocessImage]
  rw [if_neg (by decide)]

/-- C3 amended: the resampling write is guarded by
`if (src_idx < fb->len)`; an in-bounds source index is sampled
(nearest source pixel, normalized by 255), and an out-of-bounds source
index makes the code write 0 (black) — it does not clamp. -/
theorem preprocess_bounds_behavior (fb : camera_fb_t) (y x : Nat) :
    (srcIndex fb y x < fb.len →
      preprocessImage fb y x = (fb.buf (srcIndex fb y x) : ℚ) / 255) ∧
    (fb.len ≤ srcIndex fb y x → preprocessImage fb y x = 0) := by
  unfold preprocessImage srcIndex
  constructor
  · intro h
    exact if_pos h
  · intro h
    exact if_neg (not_lt.2 h)

/-- Witness for C3's amended theorem: an in-bounds read from the full
QVGA frame, and the out-of-bounds zero write on the truncated frame. -/
theorem preprocess_bounds_behavior_witness :
    preprocessImage fbEx 0 0 = (128 : ℚ) / 255 ∧
    preprocessImage { width := 320, height := 240, len := 100, buf := fun _ => 200 } 63 127 = 0 :=
  ⟨(preprocess_bounds_behavior fbEx 0 0).1 (by decide),
   (preprocess_bounds_behavior
      { width := 320, height := 240, len := 100, buf := fun _ => 200 } 63 127).2 (by decide)⟩

/-- C4 counterexample: `setup()` completes ("All Models Ready") even
though the polygon and OCR model assets declare unsupported schema
version 99 — their versions are never compared to
`TFLITE_SCHEMA_VERSION`. -/
theorem setup_ignores_polygon_ocr_versions_cex :
    setup { cameraInitOk := true, detectionVersion := 3, polygonVersion := 99,
            ocrVersion := 99, detectionAllocOk := true, polygonAllocOk := true,
            ocrAllocOk := true } = SetupResult.ready := by
  decide

/-- C4 amended: initialization checks the schema version of the
detection model only, aborting setup on a mismatch; the polygon and OCR
model versions are never read, so they cannot affect the outcome. -/
theorem setup_checks_only_detection_version (env : SetupEnv) :
    (env.cameraInitOk = true → env.detectionVersion ≠ TFLITE_SCHEMA_VERSION →
      setup env = SetupResult.detectionSchemaMismatch) ∧
    (∀ pv ov, setup { env with polygonVersion := pv, ocrVersion := ov } = setup env) := by
  constructor
  · intro hc hv
    simp [setup, hc, hv]
  · intro pv ov
    rfl

/-- Witness for C4's amended theorem at a concrete environment with a
bad detection-model version. -/
theorem setup_checks_only_detection_version_witness :
    setup { cameraInitOk := true, detectionVersion := 5, polygonVersion := 3,
            ocrVersion := 3, detectionAllocOk := true, polygonAllocOk := true,
            ocrAllocOk := true } = SetupResult.detectionSchemaMismatch ∧
    setup { cameraInitOk := true, detectionVersion := 3, polygonVersion := 42,
            ocrVersion := 7, detectionAllocOk := true, polygonAllocOk := true,
            ocrAllocOk := true } =
      setup { cameraInitOk := true, detectionVersion := 3, polygonVersion := 0,
              ocrVersion := 0, detectionAllocOk := true, polygonAllocOk := true,
              ocrAllocOk := true } :=
  ⟨(setup_checks_only_detection_version
      { cameraInitOk := true, detectionVersion := 5, polygonVersion := 3,
        ocrVersion := 3, detectionAllocOk := true, polygonAllocOk := true,
        ocrAllocOk := true }).1 rfl (by decide),
   (setup_checks_only_detection_version
      { cameraInitOk := true, detectionVersion := 3, polygonVersion := 0,
        ocrVersion := 0, detectionAllocOk := true, polygonAllocOk := true,
        ocrAllocOk := true }).2 42 7⟩

/-- C5: with detection confidence 0.3 the iteration ends as not-found
after detection — `detectPolygon` and `recognizeCharacters` are never
invoked and the frame is released exactly once — while confidence
exactly 0.5 passes the gate: the cutoff is the literal `0.5` of
`if (plate_box.confidence < 0.5)`, hard-coded in `loop()`; the source
has no configurable `detectionThreshold` parameter. -/
theorem loop_confidence_gate_hardcoded_half :
    (let lowDetect : camera_fb_t → BoundingBox :=
       fun _ => { x1 := 0, y1 := 0, x2 := 1, y2 := 1, confidence := 3 / 10 }
     let atDetect : camera_fb_t → BoundingBox :=
       fun _ => { x1 := 0, y1 := 0, x2 := 1, y2 := 1, confidence := 5 / 10 }
     (loopRun lowDetect (some fbEx) id).outcome = LoopOutcome.notFound ∧
     (loopRun lowDetect (some fbEx) id).detectPolygonCalls = 0 ∧
     (loopRun lowDetect (some fbEx) id).recognizeCalls = 0 ∧
     (loopRun lowDetect (some fbEx) id).fbReturnCount = 1 ∧
     (loopRun atDetect (some fbEx) id).outcome ≠ LoopOutcome.notFound) := by
  refine ⟨?_, ?_, ?_, ?_, ?_⟩
  · simp only [loopRun]; rw [if_pos (by norm_num)]
  · simp only [loopRun]; rw [if_pos (by norm_num)]
  · simp only [loopRun]; rw [if_pos (by norm_num)]
  · simp only [loopRun]; rw [if_pos (by norm_num)]
  · simp only [loopRun]; rw [if_neg (by norm_num)]; simp

/-- C6 counterexample: on the early-abort (not-found) outcome the
per-frame result record carries no durations at all — the timing
breakdown is only printed on the success path. -/
theorem loop_notfound_no_timings_cex :
    (loopRun (fun _ => { x1 := 0, y1 := 0, x2 := 1, y2 := 1, confidence := 3 / 10 })
        (some fbEx) id).outcome = LoopOutcome.notFound ∧
    (loopRun (fun _ => { x1 := 0, y1 := 0, x2 := 1, y2 := 1, confidence := 3 / 10 })
        (some fbEx) id).report = none := by
  constructor <;> (simp only [loopRun]; rw [if_pos (by norm_num)])

/-- C6 amended: the per-frame record contains the per-stage durations
and the total duration exactly on the successful-recognition path;
the capture-failure and early-abort paths report no durations. -/
theorem loop_timings_only_on_success
    (detect : camera_fb_t → BoundingBox) (fb : camera_fb_t) (clock : Nat → Nat) :
    ((loopRun detect none clock).report = none) ∧
    ((detect fb).confidence < 5 / 10 → (loopRun detect (some fb) clock).report = none) ∧
    (¬(detect fb).confidence < 5 / 10 →
      (loopRun detect (some fb) clock).report =
        some { stage1 := u32sub (clock 2) (clock 1), stage2 := u32sub (clock 4) (clock 3)
               stage3 := u32sub (clock 6) (clock 5), total := u32sub (clock 7) (clock 0) }) := by
  refine ⟨rfl, ?_, ?_⟩ <;> intro h <;> simp only [loopRun]
  · rw [if_pos h]
  · rw [if_neg h]

/-- Witness for C6's amended theorem: the stock detector (confidence
0.95) passes the gate and the printed record carries all four
durations; a 0.3-confidence detector aborts with no durations. -/
theorem loop_timings_only_on_success_witness :
    (loopRun detectPlate (some fbEx) id).report =
      some { stage1 := u32sub 2 1, stage2 := u32sub 4 3,
             stage3 := u32sub 6 5, total := u32sub 7 0 } ∧
    (loopRun (fun _ => { x1 := 0, y1 := 0, x2 := 1, y2 := 1, confidence := 3 / 10 })
        (some fbEx) id).report = none :=
  ⟨(loop_timings_only_on_success detectPlate fbEx id).2.2 (by norm_num [detectPlate]),
   (loop_timings_only_on_success
      (fun _ => { x1 := 0, y1 := 0, x2 := 1, y2 := 1, confidence := 3 / 10 })
      fbEx id).2.1 (by norm_num)⟩
